import Mathlib

/-!
Verification of the release-graph policy-pipeline specification against the
cincinnati sources. The phased rollout plugin (phased_rollouts.rs), the graph
fetch plugin (cincinnati_graph_fetch.rs) and the prometheus query data types
(prometheus-query v1/queries/mod.rs) are embedded below; the Graph container
and the parameter-extraction macro live in crates whose sources are not part
of the reviewed tree, so they are modelled from the specification text, as
marked on each definition.
-/

deriving instance DecidableEq for Except

namespace Cincinnati

/-- Lookup in a string-keyed association list, modelling the Rust HashMap get:
returns the binding for the key, if any. -/
def mapGet {β : Type} (m : List (String × β)) (k : String) : Option β :=
  match m with
  | [] => none
  | (k0, v0) :: t => if k0 = k then some v0 else mapGet t k

/-- Insert into a string-keyed association list, modelling the Rust HashMap
insert: replaces the binding for the key if present, otherwise appends it. -/
def mapInsert {β : Type} (k : String) (v : β) : List (String × β) → List (String × β)
  | [] => [(k, v)]
  | (k0, v0) :: t => if k0 = k then (k, v) :: t else (k0, v0) :: mapInsert k v t

/-- Modelled from the spec (section 3): a Concrete release has a version, an
opaque payload reference and a string-to-string metadata map. The cincinnati
crate root defining ConcreteRelease is not part of the reviewed tree. -/
structure ConcreteRelease where
  version : String
  payload : String
  metadata : List (String × String)
deriving DecidableEq

/-- Modelled from the spec (section 3): a release is either Concrete or an
Abstract placeholder carrying only a version. -/
inductive Release where
  | Concrete (release : ConcreteRelease)
  | Abstract (version : String)
deriving DecidableEq

/-- Modelled from the spec (section 3): the graph owns the releases, addressed
by stable ReleaseId handles, and the directed edges between handles. The
cincinnati crate root defining Graph is not part of the reviewed tree. -/
structure Graph where
  releases : List (Nat × Release)
  edges : List (Nat × Nat)
deriving DecidableEq

/-- Modelled from the spec (section 4.1): find_by_fn_mut visits every release,
applies the caller closure (modelled as a function returning the updated
release and the predicate value) and returns the graph after the in-place
mutations together with the matching (id, release) pairs. -/
def Graph.find_by_fn_mut (g : Graph) (f : Release → Release × Bool) :
    Graph × List (Nat × Release) :=
  let visited := g.releases.map (fun p => (p.1, f p.2))
  ({ g with releases := visited.map (fun q => (q.1, q.2.1)) },
    (visited.filter (fun q => q.2.2)).map (fun q => (q.1, q.2.1)))

/-- Modelled from the spec (section 4.1): remove_releases removes each listed
node and all edges touching it, ignores absent ids, and returns the number of
nodes actually removed. -/
def Graph.remove_releases (g : Graph) (ids : List Nat) : Graph × Nat :=
  ({ releases := g.releases.filter (fun p => !(ids.contains p.1)),
     edges := g.edges.filter (fun e => !(ids.contains e.1) && !(ids.contains e.2)) },
    (g.releases.filter (fun p => ids.contains p.1)).length)

/-- The unit of pipeline state exchanged by plugins: a graph and the request
parameters. -/
structure InternalIo where
  graph : Graph
  parameters : List (String × String)
deriving DecidableEq

/-- Value of a digit string read in base ten. -/
def digitsToNat (l : List Char) : Nat :=
  l.foldl (fun n c => n * 10 + (c.toNat - 48)) 0

/-- Shallow model of the Rust f64 FromStr parse on decimal literals: an
optional sign, then digits with at most one decimal point and at least one
digit overall; anything else does not parse. Exponent and non-finite forms are
not produced by the telemetry samples under study and are left out. -/
def parseRatio (s : String) : Option Rat :=
  let l := s.toList
  let sl : Int × List Char :=
    match l with
    | '-' :: t => (-1, t)
    | '+' :: t => (1, t)
    | _ => (1, l)
  let body := sl.2
  if body.contains '.' then
    let ip := body.takeWhile (fun c => c != '.')
    let fp := (body.dropWhile (fun c => c != '.')).drop 1
    if fp.contains '.' then none
    else if ip.all Char.isDigit && fp.all Char.isDigit && (!ip.isEmpty || !fp.isEmpty) then
      some (mkRat (sl.1 * (digitsToNat ip * 10 ^ fp.length + digitsToNat fp : Nat)) (10 ^ fp.length))
    else none
  else
    if body.all Char.isDigit && !body.isEmpty then some (mkRat (sl.1 * (digitsToNat body : Int)) 1)
    else none

/-- Default failure ratio attached to versions missing from the telemetry map
(the source string constant "1.0"). -/
def defaultVersionFailureRatio : String := "1.0"

/-- Default removal threshold (the source f64 constant 0.8, embedded as the
rational 8 / 10). -/
def defaultVersionFailureRatioThreshold : Rat := mkRat 8 10

/-- The closure passed to find_by_fn_mut by attach_failure_ratios
(phased_rollouts.rs lines 139 to 156): a Concrete release gets the telemetry
ratio for its version, or the default when absent, written under the
failure_ratio metadata key; other releases are untouched. -/
def attachRelease (version_failure_ratios : List (String × String))
    (default_version_failure_ratio : String) : Release → Release × Bool
  | Release.Concrete cr =>
    let failure_ratio :=
      match mapGet version_failure_ratios cr.version with
      | some r => r
      | none => default_version_failure_ratio
    (Release.Concrete { cr with
        metadata := mapInsert "failure_ratio" failure_ratio cr.metadata }, true)
  | r => (r, false)

/-- attach_failure_ratios (phased_rollouts.rs lines 134 to 159): attaches a
failure ratio to every Concrete release in place; the Rust function always
returns Ok. -/
def attach_failure_ratios (graph : Graph) (version_failure_ratios : List (String × String))
    (default_version_failure_ratio : String) : Graph :=
  (graph.find_by_fn_mut (attachRelease version_failure_ratios default_version_failure_ratio)).1

/-- The closure passed to find_by_fn_mut by filter_by_failure_ratio
(phased_rollouts.rs lines 162 to 172); the error case models the unwrap panic
on a failure_ratio value that does not parse as a float. -/
def filterRelease (failure_ratio_threshold : Rat) : Release → Except String Bool
  | Release.Concrete cr =>
    match mapGet cr.metadata "failure_ratio" with
    | some s =>
      match parseRatio s with
      | some v => Except.ok (decide (failure_ratio_threshold < v))
      | none => Except.error "invalid float literal"
    | none => Except.ok true
  | _ => Except.ok false

/-- Left-to-right traversal underlying find_by_fn_mut when the closure can
panic: collects the entries on which the closure yields true, or propagates
the first panic. -/
def findMatchesE (f : Release → Except String Bool) :
    List (Nat × Release) → Except String (List (Nat × Release))
  | [] => Except.ok []
  | p :: t =>
    match f p.2 with
    | Except.error e => Except.error e
    | Except.ok b =>
      match findMatchesE f t with
      | Except.error e => Except.error e
      | Except.ok rest => Except.ok (if b then p :: rest else rest)

/-- filter_by_failure_ratio (phased_rollouts.rs lines 161 to 182): removes
every release flagged by its closure and returns the removal count; the error
case models the unwrap panic on an unparseable ratio. -/
def filter_by_failure_ratio (graph : Graph) (failure_ratio_threshold : Rat) :
    Except String (Graph × Nat) :=
  match findMatchesE (filterRelease failure_ratio_threshold) graph.releases with
  | Except.error e => Except.error e
  | Except.ok to_remove => Except.ok (graph.remove_releases (to_remove.map Prod.fst))

/-- Shallow model of a serde_json value, as carried by the metric field of a
telemetry vector entry. -/
inductive Json where
  | null
  | bool (b : Bool)
  | num (q : Rat)
  | str (s : String)
  | arr (elements : List Json)
  | obj (entries : List (String × Json))

/-- as_object of serde_json: the entry list of an object value. -/
def Json.as_object : Json → Option (List (String × Json))
  | Json.obj entries => some entries
  | _ => none

/-- as_str of serde_json: the string of a string value. -/
def Json.as_str : Json → Option String
  | Json.str s => some s
  | _ => none

/-- VectorValue (prometheus-query v1/queries/mod.rs lines 59 to 63): a sample
timestamp and a string-encoded numeric sample. -/
structure VectorValue where
  time : Rat
  sample : String
deriving DecidableEq

/-- VectorResult (prometheus-query v1/queries/mod.rs lines 46 to 50): a label
set and one sample. -/
structure VectorResult where
  metric : Json
  value : VectorValue

/-- get_metric_value_pair (prometheus-query v1/queries/mod.rs lines 53 to 56). -/
def VectorResult.get_metric_value_pair (r : VectorResult) : Json × VectorValue :=
  (r.metric, r.value)

/-- get_time_sample_pair (prometheus-query v1/queries/mod.rs lines 65 to 68). -/
def VectorValue.get_time_sample_pair (v : VectorValue) : Rat × String :=
  (v.time, v.sample)

/-- QueryData (prometheus-query v1/queries/mod.rs lines 37 to 44). -/
inductive QueryData where
  | Matrix (result : List (List VectorResult))
  | Vector (result : List VectorResult)

/-- QuerySuccess (prometheus-query v1/queries/mod.rs lines 16 to 20). -/
structure QuerySuccess where
  data : QueryData
  warnings : Option (List String)

/-- QueryError (prometheus-query v1/queries/mod.rs lines 28 to 35). -/
structure QueryError where
  data : Json
  error_type : String
  error : String
  warnings : Option (List String)

/-- QueryResult (prometheus-query v1/queries/mod.rs lines 9 to 14). -/
inductive QueryResult where
  | Success (s : QuerySuccess)
  | Error (e : QueryError)

/-- The closure of the filter_map in get_failure_ratios (phased_rollouts.rs
lines 104 to 129): yields the (version, sample) pair of a well-formed vector
entry and drops a malformed entry with a diagnostic. -/
def extractVersionRatio (vector_result : VectorResult) : Option (String × String) :=
  let mv := vector_result.get_metric_value_pair
  match mv.1.as_object with
  | some metric_object =>
    match mapGet metric_object "version" with
    | some version_value =>
      match version_value.as_str with
      | some version_string => some (version_string, (mv.2.get_time_sample_pair).2)
      | none => none
    | none => none
  | none => none

/-- Collect of an iterator of pairs into a Rust HashMap: later pairs overwrite
earlier pairs with the same key. -/
def collectMap (pairs : List (String × String)) : List (String × String) :=
  pairs.foldl (fun m p => mapInsert p.1 p.2 m) []

/-- get_failure_ratios (phased_rollouts.rs lines 73 to 131), the network
exchange abstracted as the delivered query outcome: the result must be a
Success carrying a Vector, whose entries are extracted and collected. -/
def get_failure_ratios (query_outcome : Except String QueryResult) :
    Except String (List (String × String)) :=
  match query_outcome with
  | Except.error e => Except.error e
  | Except.ok (QueryResult.Error _) => Except.error "expected result"
  | Except.ok (QueryResult.Success query_success) =>
    match query_success.data with
    | QueryData.Vector vector => Except.ok (collectMap (vector.filterMap extractVersionRatio))
    | _ => Except.error "expected vector"

/-- Modelled from the spec (sections 4.4 and 7): the parameter-extraction
macro of the commons crate (not part of the reviewed tree) returns the values
of the requested keys, or fails with a missing-key error naming the first
absent key. -/
def get_multiple_values (parameters : List (String × String)) :
    List String → Except String (List String)
  | [] => Except.ok []
  | k :: t =>
    match mapGet parameters k with
    | none => Except.error ("missing parameter " ++ k)
    | some v =>
      match get_multiple_values parameters t with
      | Except.error e => Except.error e
      | Except.ok rest => Except.ok (v :: rest)

/-- run_internal of PhasedRolloutPlugin (phased_rollouts.rs lines 28 to 69).
The telemetry exchange is abstracted as the delivered query outcome; the first
component counts the telemetry queries issued. -/
def PhasedRolloutPlugin.run_internal (internal_io : InternalIo)
    (query_outcome : Except String QueryResult) : Nat × Except String InternalIo :=
  match get_multiple_values internal_io.parameters ["version", "channel", "id"] with
  | Except.error e => (0, Except.error e)
  | Except.ok _ =>
    match get_failure_ratios query_outcome with
    | Except.error e => (1, Except.error e)
    | Except.ok version_failure_ratios =>
      let graph := attach_failure_ratios internal_io.graph version_failure_ratios
        defaultVersionFailureRatio
      match filter_by_failure_ratio graph defaultVersionFailureRatioThreshold with
      | Except.error e => (1, Except.error e)
      | Except.ok gr => (1, Except.ok { graph := gr.1, parameters := internal_io.parameters })

/-- The graph transformation of one phased rollout run: attach the failure
ratios with the default ratio, then filter by the default threshold
(run_internal lines 50 to 62). -/
def phased_transform (graph : Graph) (version_failure_ratios : List (String × String)) :
    Except String (Graph × Nat) :=
  filter_by_failure_ratio
    (attach_failure_ratios graph version_failure_ratios defaultVersionFailureRatio)
    defaultVersionFailureRatioThreshold

/-- DEFAULT_UPSTREAM_URL (cincinnati_graph_fetch.rs line 15). -/
def DEFAULT_UPSTREAM_URL : String := "http://localhost:8080/v1/graph"

/-- CincinnatiGraphFetchSettings (cincinnati_graph_fetch.rs lines 18 to 23). -/
structure CincinnatiGraphFetchSettings where
  upstream : String
deriving DecidableEq

/-- deserialize_config (cincinnati_graph_fetch.rs lines 52 to 59): the serde
default attribute fills an absent upstream field with DEFAULT_UPSTREAM_URL,
then an empty upstream is rejected. -/
def CincinnatiGraphFetchPlugin.deserialize_config (upstream_field : Option String) :
    Except String CincinnatiGraphFetchSettings :=
  let settings : CincinnatiGraphFetchSettings :=
    { upstream :=
        match upstream_field with
        | some u => u
        | none => DEFAULT_UPSTREAM_URL }
  if settings.upstream.isEmpty then Except.error "empty upstream"
  else Except.ok settings

/-- Outcome of the HTTP exchange of the graph fetch plugin: a transport-level
failure, or a response carrying the success flag of its status, the status
text, and the body, whose outer Except is the body read and whose inner
Except is the serde_json parse into a Graph. -/
inductive HttpOutcome where
  | transportError (e : String)
  | response (is_success : Bool) (status : String) (body : Except String (Except String Graph))

/-- run_internal of CincinnatiGraphFetchPlugin (cincinnati_graph_fetch.rs
lines 89 to 150). request_assembles tells whether the upstream request could
be built (the early-return path before the requests counter increment); the
result pairs the (requests, errors) counter deltas with the pipeline result. -/
def CincinnatiGraphFetchPlugin.run_internal (io : InternalIo) (request_assembles : Bool)
    (outcome : HttpOutcome) : (Nat × Nat) × Except String InternalIo :=
  if request_assembles then
    match outcome with
    | HttpOutcome.transportError e =>
      ((1, 1), Except.error ("failed to fetch upstream: " ++ e))
    | HttpOutcome.response is_success status body =>
      if is_success then
        match body with
        | Except.error e => ((1, 0), Except.error ("failed to fetch upstream: " ++ e))
        | Except.ok (Except.error e) => ((1, 0), Except.error ("failed to parse JSON: " ++ e))
        | Except.ok (Except.ok graph) =>
          ((1, 0), Except.ok { graph := graph, parameters := io.parameters })
      else ((1, 1), Except.error ("failed to fetch upstream: " ++ status))
  else ((0, 0), Except.error "failed to assemble upstream request")

/-! Helper lemmas about the association-list map model. -/

theorem mapGet_mapInsert_self {β : Type} (k : String) (v : β) (m : List (String × β)) :
    mapGet (mapInsert k v m) k = some v := by
  induction m with
  | nil => simp [mapInsert, mapGet]
  | cons p t ih =>
    obtain ⟨k0, v0⟩ := p
    by_cases h : k0 = k
    · simp [mapInsert, mapGet, h]
    · simp [mapInsert, mapGet, h, ih]

theorem mapInsert_idem {β : Type} (k : String) (v : β) (m : List (String × β)) :
    mapInsert k v (mapInsert k v m) = mapInsert k v m := by
  induction m with
  | nil => simp [mapInsert]
  | cons p t ih =>
    obtain ⟨k0, v0⟩ := p
    by_cases h : k0 = k
    · simp [mapInsert, h]
    · simp [mapInsert, h, ih]

theorem mapGet_some_iff_mem {β : Type} {m : List (String × β)}
    (h : (m.map Prod.fst).Nodup) (k : String) (v : β) :
    mapGet m k = some v ↔ (k, v) ∈ m := by
  induction m with
  | nil => simp [mapGet]
  | cons p t ih =>
    obtain ⟨k0, v0⟩ := p
    rw [List.map_cons, List.nodup_cons] at h
    by_cases hk : k0 = k
    · subst hk
      constructor
      · intro hv
        simp [mapGet] at hv
        rw [← hv]
        exact List.mem_cons_self _ _
      · intro hm
        rcases List.mem_cons.mp hm with h1 | h2
        · cases h1
          simp [mapGet]
        · exact absurd (List.mem_map.mpr ⟨(k0, v), h2, rfl⟩) h.1
    · simp only [mapGet, if_neg hk, List.mem_cons, ih h.2]
      constructor
      · intro hv
        exact Or.inr hv
      · intro hor
        rcases hor with h1 | h2
        · cases h1
          exact absurd rfl hk
        · exact h2

theorem mapInsert_of_not_mem {β : Type} {k : String} {m : List (String × β)}
    (h : k ∉ m.map Prod.fst) (v : β) : mapInsert k v m = m ++ [(k, v)] := by
  induction m with
  | nil => simp [mapInsert]
  | cons p t ih =>
    obtain ⟨k0, v0⟩ := p
    rw [List.map_cons] at h
    have hne : k0 ≠ k := by
      intro he
      exact h (by simp [he])
    have ht : k ∉ t.map Prod.fst := by
      intro hm
      exact h (List.mem_cons_of_mem _ hm)
    simp [mapInsert, hne, ih ht]

theorem nodup_keys_mem_eq {α β : Type} {l : List (α × β)} (h : (l.map Prod.fst).Nodup)
    {a : α} {b c : β} (hb : (a, b) ∈ l) (hc : (a, c) ∈ l) : b = c := by
  induction l with
  | nil => cases hb
  | cons p t ih =>
    rw [List.map_cons, List.nodup_cons] at h
    rcases List.mem_cons.mp hb with hb1 | hb2
    · rcases List.mem_cons.mp hc with hc1 | hc2
      · exact congrArg Prod.snd (hb1.trans hc1.symm)
      · cases hb1
        exact absurd (List.mem_map.mpr ⟨(a, c), hc2, rfl⟩) h.1
    · rcases List.mem_cons.mp hc with hc1 | hc2
      · cases hc1
        exact absurd (List.mem_map.mpr ⟨(a, b), hb2, rfl⟩) h.1
      · exact ih h.2 hb2 hc2

/-! Helper lemmas about the fallible traversal of find_by_fn_mut. -/

theorem findMatchesE_ok_forall {f : Release → Except String Bool}
    {l : List (Nat × Release)} {res : List (Nat × Release)}
    (h : findMatchesE f l = Except.ok res) :
    ∀ p ∈ l, ∃ b, f p.2 = Except.ok b := by
  induction l generalizing res with
  | nil => intro p hp; cases hp
  | cons q t ih =>
    intro p hp
    simp only [findMatchesE] at h
    cases hf : f q.2 with
    | error e => simp only [hf] at h; cases h
    | ok b =>
      simp only [hf] at h
      cases hrec : findMatchesE f t with
      | error e => simp only [hrec] at h; cases h
      | ok rest =>
        rcases List.mem_cons.mp hp with h1 | h2
        · exact ⟨b, h1 ▸ hf⟩
        · exact ih hrec p h2

theorem findMatchesE_ok_mem {f : Release → Except String Bool}
    {l : List (Nat × Release)} {res : List (Nat × Release)}
    (h : findMatchesE f l = Except.ok res) :
    ∀ p, p ∈ res ↔ p ∈ l ∧ f p.2 = Except.ok true := by
  induction l generalizing res with
  | nil =>
    simp only [findMatchesE, Except.ok.injEq] at h
    subst h
    simp
  | cons q t ih =>
    intro p
    simp only [findMatchesE] at h
    cases hf : f q.2 with
    | error e => simp only [hf] at h; cases h
    | ok b =>
      simp only [hf] at h
      cases hrec : findMatchesE f t with
      | error e => simp only [hrec] at h; cases h
      | ok rest =>
        simp only [hrec] at h
        cases b with
        | true =>
          simp at h
          subst h
          simp only [List.mem_cons, ih hrec p]
          constructor
          · intro hor
            rcases hor with h1 | h2
            · exact ⟨Or.inl h1, h1 ▸ hf⟩
            · exact ⟨Or.inr h2.1, h2.2⟩
          · intro hand
            rcases hand.1 with h1 | h2
            · exact Or.inl h1
            · exact Or.inr ⟨h2, hand.2⟩
        | false =>
          simp at h
          subst h
          simp only [List.mem_cons, ih hrec p]
          constructor
          · intro hand
            exact ⟨Or.inr hand.1, hand.2⟩
          · intro hand
            rcases hand.1 with h1 | h2
            · rw [← h1] at hf
              rw [hand.2] at hf
              cases hf
            · exact ⟨h2, hand.2⟩

theorem findMatchesE_ok_nil {f : Release → Except String Bool} {l : List (Nat × Release)}
    (h : ∀ p ∈ l, f p.2 = Except.ok false) : findMatchesE f l = Except.ok [] := by
  induction l with
  | nil => rfl
  | cons q t ih =>
    have hq := h q (List.mem_cons_self q t)
    have ht := ih (fun p hp => h p (List.mem_cons_of_mem q hp))
    simp only [findMatchesE, hq, ht]
    simp

theorem findMatchesE_error_of_mem {f : Release → Except String Bool}
    {l : List (Nat × Release)} {p : Nat × Release} {e : String}
    (hp : p ∈ l) (hf : f p.2 = Except.error e) :
    ∃ e2, findMatchesE f l = Except.error e2 := by
  induction l with
  | nil => cases hp
  | cons q t ih =>
    cases hfq : f q.2 with
    | error e0 =>
      refine ⟨e0, ?_⟩
      simp only [findMatchesE, hfq]
    | ok b =>
      rcases List.mem_cons.mp hp with h1 | h2
      · rw [← h1, hf] at hfq
        cases hfq
      · obtain ⟨e2, he2⟩ := ih h2
        refine ⟨e2, ?_⟩
        simp only [findMatchesE, hfq, he2]

/-! Helper lemmas about attach_failure_ratios and filter_by_failure_ratio. -/

theorem attach_releases_eq (g : Graph) (r : List (String × String)) (d : String) :
    (attach_failure_ratios g r d).releases =
      g.releases.map (fun p => (p.1, (attachRelease r d p.2).1)) := by
  simp [attach_failure_ratios, Graph.find_by_fn_mut, List.map_map]

theorem attach_edges_eq (g : Graph) (r : List (String × String)) (d : String) :
    (attach_failure_ratios g r d).edges = g.edges := rfl

theorem attach_map_fst (g : Graph) (r : List (String × String)) (d : String) :
    (attach_failure_ratios g r d).releases.map Prod.fst = g.releases.map Prod.fst := by
  rw [attach_releases_eq, List.map_map]
  rfl

theorem filter_ok_elim {g : Graph} {t : Rat} {g2 : Graph} {n : Nat}
    (hok : filter_by_failure_ratio g t = Except.ok (g2, n)) :
    ∃ tr, findMatchesE (filterRelease t) g.releases = Except.ok tr ∧
      g2 = (g.remove_releases (tr.map Prod.fst)).1 ∧
      n = (g.remove_releases (tr.map Prod.fst)).2 := by
  unfold filter_by_failure_ratio at hok
  cases hfind : findMatchesE (filterRelease t) g.releases with
  | error e =>
    simp only [hfind] at hok
    cases hok
  | ok tr =>
    simp only [hfind, Except.ok.injEq] at hok
    exact ⟨tr, rfl, congrArg Prod.fst hok.symm, congrArg Prod.snd hok.symm⟩

theorem filter_error_of_mem {g : Graph} {t : Rat} {p : Nat × Release} {e : String}
    (hp : p ∈ g.releases) (hf : filterRelease t p.2 = Except.error e) :
    ∃ e2, filter_by_failure_ratio g t = Except.error e2 := by
  obtain ⟨e2, he2⟩ := findMatchesE_error_of_mem hp hf
  refine ⟨e2, ?_⟩
  simp only [filter_by_failure_ratio, he2]

theorem filter_ok_mem_iff {g : Graph} {t : Rat} {g2 : Graph} {n : Nat}
    (hnd : (g.releases.map Prod.fst).Nodup)
    (hok : filter_by_failure_ratio g t = Except.ok (g2, n)) :
    ∀ p, p ∈ g2.releases ↔ p ∈ g.releases ∧ filterRelease t p.2 = Except.ok false := by
  obtain ⟨tr, hfind, hg2, hn⟩ := filter_ok_elim hok
  intro p
  have hmem := findMatchesE_ok_mem hfind
  have hforall := findMatchesE_ok_forall hfind
  subst hg2
  show p ∈ g.releases.filter (fun q => !((tr.map Prod.fst).contains q.1)) ↔ _
  rw [List.mem_filter]
  constructor
  · intro hand
    refine ⟨hand.1, ?_⟩
    obtain ⟨b, hb⟩ := hforall p hand.1
    cases b with
    | false => exact hb
    | true =>
      exfalso
      have hptr : p ∈ tr := (hmem p).mpr ⟨hand.1, hb⟩
      have hfstmem : p.1 ∈ tr.map Prod.fst := List.mem_map.mpr ⟨p, hptr, rfl⟩
      have hc : (tr.map Prod.fst).contains p.1 = true := by simpa using hfstmem
      rw [hc] at hand
      exact absurd hand.2 (by decide)
  · intro hand
    refine ⟨hand.1, ?_⟩
    cases hcontains : (tr.map Prod.fst).contains p.1 with
    | false => simp [hcontains]
    | true =>
      exfalso
      have hfst : p.1 ∈ tr.map Prod.fst := by simpa using hcontains
      obtain ⟨q, hq, hq1⟩ := List.mem_map.mp hfst
      have hqg : q ∈ g.releases := ((hmem q).mp hq).1
      have hqtrue : filterRelease t q.2 = Except.ok true := ((hmem q).mp hq).2
      have hsnd : q.2 = p.2 := by
        have hqe : q = (p.1, q.2) := by
          rw [← hq1]
        rw [hqe] at hqg
        exact nodup_keys_mem_eq hnd hqg (by exact hand.1)
      rw [hsnd, hand.2] at hqtrue
      cases hqtrue

/-! Claim C1. -/

/-- Concrete graph whose single Concrete release carries a present but
unparseable failure_ratio metadata value. -/
def c1BadGraph : Graph :=
  { releases :=
      [ (0,
          Release.Concrete
            { version := "1.0.0", payload := "payload0",
              metadata := [("failure_ratio", "not-a-number")] }) ],
    edges := [] }

/-- C1 counterexample: the claim says a Concrete release with a present but
unparseable failure_ratio is removed defensively and never causes an error;
on the code, filter_by_failure_ratio fails on such a release (the source
unwraps the float parse), so the claim is false at this input. -/
theorem C1_counterexample :
    filter_by_failure_ratio c1BadGraph defaultVersionFailureRatioThreshold =
      Except.error "invalid float literal" := by decide

/-- C1 (amended): when filter_by_failure_ratio succeeds, a Concrete release is
removed exactly when its failure_ratio metadata is missing or parses to a
value strictly greater than the threshold; a present but unparseable
failure_ratio instead makes the whole operation fail. -/
theorem C1_filter_removal_characterization (g : Graph) (t : Rat) (id : Nat)
    (cr : ConcreteRelease) (hnd : (g.releases.map Prod.fst).Nodup)
    (hmem : (id, Release.Concrete cr) ∈ g.releases) :
    (∀ g2 n, filter_by_failure_ratio g t = Except.ok (g2, n) →
      ((id, Release.Concrete cr) ∉ g2.releases ↔
        (mapGet cr.metadata "failure_ratio" = none ∨
          ∃ s v, mapGet cr.metadata "failure_ratio" = some s ∧
            parseRatio s = some v ∧ t < v))) ∧
    (∀ s, mapGet cr.metadata "failure_ratio" = some s → parseRatio s = none →
      ∃ e, filter_by_failure_ratio g t = Except.error e) := by
  constructor
  · intro g2 n hok
    have hiff : (id, Release.Concrete cr) ∈ g2.releases ↔
        (id, Release.Concrete cr) ∈ g.releases ∧
          filterRelease t (Release.Concrete cr) = Except.ok false :=
      filter_ok_mem_iff hnd hok (id, Release.Concrete cr)
    rw [hiff]
    cases hs : mapGet cr.metadata "failure_ratio" with
    | none =>
      have hpred : filterRelease t (Release.Concrete cr) = Except.ok true := by
        simp [filterRelease, hs]
      constructor
      · intro _
        exact Or.inl rfl
      · intro _ hand
        exact absurd (hpred.symm.trans hand.2) (by decide)
    | some s =>
      cases hv : parseRatio s with
      | some v =>
        constructor
        · intro hnot
          by_cases hlt : t < v
          · exact Or.inr ⟨s, v, rfl, hv, hlt⟩
          · exfalso
            apply hnot
            refine ⟨hmem, ?_⟩
            simp [filterRelease, hs, hv, hlt]
        · rintro (h0 | ⟨s2, v2, hs2, hv2, hlt2⟩) hand
          · exact Option.noConfusion h0
          · have hseq : s = s2 := Option.some.inj hs2
            subst hseq
            have hveq : v = v2 := Option.some.inj (hv.symm.trans hv2)
            subst hveq
            have h2 := hand.2
            simp [filterRelease, hs, hv] at h2
            exact absurd hlt2 (not_lt.mpr h2)
      | none =>
        exfalso
        obtain ⟨tr, hfind, _, _⟩ := filter_ok_elim hok
        obtain ⟨b, hb⟩ := findMatchesE_ok_forall hfind (id, Release.Concrete cr) hmem
        have hpred : filterRelease t (Release.Concrete cr) = Except.error "invalid float literal" := by
          simp [filterRelease, hs, hv]
        exact Except.noConfusion (hpred.symm.trans hb)
  · intro s hs hparse
    have hpred : filterRelease t (Release.Concrete cr) =
        Except.error "invalid float literal" := by
      simp [filterRelease, hs, hparse]
    exact filter_error_of_mem hmem hpred

/-- Concrete release with ratio 0.9, above the default threshold. -/
def c1wRelease : ConcreteRelease :=
  { version := "1.0.0", payload := "p", metadata := [("failure_ratio", "0.9")] }

/-- One-release graph for the C1 witness. -/
def c1wGraph : Graph :=
  { releases := [(0, Release.Concrete c1wRelease)], edges := [] }

/-- C1 witness: the amended characterization applied to a concrete graph whose
release parses to 0.9 and is removed by the 0.8 threshold. -/
theorem C1_witness :
    (0, Release.Concrete c1wRelease) ∉ (Graph.mk [] []).releases ↔
      (mapGet c1wRelease.metadata "failure_ratio" = none ∨
        ∃ s v, mapGet c1wRelease.metadata "failure_ratio" = some s ∧
          parseRatio s = some v ∧ defaultVersionFailureRatioThreshold < v) :=
  (C1_filter_removal_characterization c1wGraph defaultVersionFailureRatioThreshold 0
    c1wRelease (by decide) (by decide)).1 (Graph.mk [] []) 1 (by decide)

/-! Claim C4. -/

/-- C4: when filter_by_failure_ratio succeeds, a Concrete release whose
failure_ratio parses to a value exactly equal to the threshold is retained,
and one whose value is strictly above the threshold is removed. -/
theorem C4_threshold_strictness (g : Graph) (t : Rat) (id : Nat) (cr : ConcreteRelease)
    (s : String) (v : Rat) (g2 : Graph) (n : Nat)
    (hnd : (g.releases.map Prod.fst).Nodup)
    (hmem : (id, Release.Concrete cr) ∈ g.releases)
    (hs : mapGet cr.metadata "failure_ratio" = some s)
    (hv : parseRatio s = some v)
    (hok : filter_by_failure_ratio g t = Except.ok (g2, n)) :
    (v = t → (id, Release.Concrete cr) ∈ g2.releases) ∧
      (t < v → (id, Release.Concrete cr) ∉ g2.releases) := by
  have hiff : (id, Release.Concrete cr) ∈ g2.releases ↔
      (id, Release.Concrete cr) ∈ g.releases ∧
        filterRelease t (Release.Concrete cr) = Except.ok false :=
    filter_ok_mem_iff hnd hok (id, Release.Concrete cr)
  constructor
  · intro he
    rw [hiff]
    refine ⟨hmem, ?_⟩
    have hnlt : ¬ t < v := by
      rw [he]
      exact lt_irrefl t
    simp [filterRelease, hs, hv, hnlt]
  · intro hlt
    rw [hiff]
    intro hand
    have h2 := hand.2
    simp [filterRelease, hs, hv] at h2
    exact absurd hlt (not_lt.mpr h2)

/-- Concrete release with ratio 0.8, exactly the default threshold. -/
def c4EqRelease : ConcreteRelease :=
  { version := "1.0.0", payload := "p0", metadata := [("failure_ratio", "0.8")] }

/-- Concrete release with ratio 0.9, strictly above the default threshold. -/
def c4HiRelease : ConcreteRelease :=
  { version := "2.0.0", payload := "p1", metadata := [("failure_ratio", "0.9")] }

/-- Two-release graph for the C4 witness. -/
def c4Graph : Graph :=
  { releases := [(0, Release.Concrete c4EqRelease), (1, Release.Concrete c4HiRelease)],
    edges := [(0, 1)] }

/-- C4 witness: on the concrete two-release graph, the release at the
threshold is retained and the one above it is removed. -/
theorem C4_witness :
    (0, Release.Concrete c4EqRelease) ∈
        (Graph.mk [(0, Release.Concrete c4EqRelease)] []).releases ∧
      (1, Release.Concrete c4HiRelease) ∉
        (Graph.mk [(0, Release.Concrete c4EqRelease)] []).releases :=
  ⟨(C4_threshold_strictness c4Graph defaultVersionFailureRatioThreshold 0 c4EqRelease
      "0.8" (mkRat 8 10) (Graph.mk [(0, Release.Concrete c4EqRelease)] []) 1
      (by decide) (by decide) (by decide) (by decide) (by decide)).1 (by decide),
    (C4_threshold_strictness c4Graph defaultVersionFailureRatioThreshold 1 c4HiRelease
      "0.9" (mkRat 9 10) (Graph.mk [(0, Release.Concrete c4EqRelease)] []) 1
      (by decide) (by decide) (by decide) (by decide) (by decide)).2 (by decide)⟩

/-- Decomposition of a Concrete release found in the output of
attach_failure_ratios: it is the enrichment of a Concrete release of the
input graph under the same id. -/
theorem attach_concrete_elim {g : Graph} {ratios : List (String × String)} {d : String}
    {id : Nat} {cr : ConcreteRelease}
    (hmem : (id, Release.Concrete cr) ∈ (attach_failure_ratios g ratios d).releases) :
    ∃ cr0, (id, Release.Concrete cr0) ∈ g.releases ∧
      cr.version = cr0.version ∧ cr.payload = cr0.payload ∧
      cr.metadata = mapInsert "failure_ratio"
        (match mapGet ratios cr0.version with
          | some r => r
          | none => d) cr0.metadata := by
  rw [attach_releases_eq] at hmem
  obtain ⟨p, hp, heq⟩ := List.mem_map.mp hmem
  obtain ⟨pid, prel⟩ := p
  cases prel with
  | Abstract ver => simp [attachRelease] at heq
  | Concrete cr0 =>
    simp only [attachRelease, Prod.mk.injEq] at heq
    obtain ⟨hid, hrel⟩ := heq
    subst hid
    cases hrel
    exact ⟨cr0, hp, rfl, rfl, rfl⟩

/-! Claim C5. -/

/-- C5: after attach_failure_ratios with the default ratio, every Concrete
release of the result carries, under the failure_ratio metadata key, the
telemetry ratio matching its version, or the default ratio "1.0" when no
ratio matches, and Abstract releases are carried over untouched, with no
metadata attached. -/
theorem C5_attach_enrichment (g : Graph) (ratios : List (String × String)) :
    (∀ id cr, (id, Release.Concrete cr) ∈
        (attach_failure_ratios g ratios defaultVersionFailureRatio).releases →
      ((∀ r, mapGet ratios cr.version = some r →
          mapGet cr.metadata "failure_ratio" = some r) ∧
        (mapGet ratios cr.version = none →
          mapGet cr.metadata "failure_ratio" = some defaultVersionFailureRatio))) ∧
    (∀ id ver, (id, Release.Abstract ver) ∈
        (attach_failure_ratios g ratios defaultVersionFailureRatio).releases ↔
      (id, Release.Abstract ver) ∈ g.releases) := by
  constructor
  · intro id cr hmem
    obtain ⟨cr0, hmem0, hver, hpay, hmeta⟩ := attach_concrete_elim hmem
    constructor
    · intro r hr
      rw [hver] at hr
      rw [hmeta, hr]
      exact mapGet_mapInsert_self _ _ _
    · intro hr
      rw [hver] at hr
      rw [hmeta, hr]
      exact mapGet_mapInsert_self _ _ _
  · intro id ver
    constructor
    · intro hmem
      rw [attach_releases_eq] at hmem
      obtain ⟨p, hp, heq⟩ := List.mem_map.mp hmem
      obtain ⟨pid, prel⟩ := p
      cases prel with
      | Concrete cr0 => simp [attachRelease] at heq
      | Abstract ver0 =>
        simp only [attachRelease, Prod.mk.injEq] at heq
        obtain ⟨hid, hrel⟩ := heq
        subst hid
        cases hrel
        exact hp
    · intro hmem
      rw [attach_releases_eq]
      exact List.mem_map.mpr ⟨(id, Release.Abstract ver), hmem, rfl⟩

/-- Graph for the C5 witness: one Concrete release with a telemetry match,
one without, and one Abstract release. -/
def c5Graph : Graph :=
  { releases :=
      [ (0, Release.Concrete { version := "1.0.0", payload := "p0", metadata := [] }),
        (1, Release.Concrete { version := "2.0.0", payload := "p1", metadata := [] }),
        (2, Release.Abstract "3.0.0") ],
    edges := [(0, 1)] }

/-- C5 witness: the enrichment characterization applied to a concrete graph
and telemetry map. -/
theorem C5_witness :
    mapGet
        (mapInsert "failure_ratio" "0.5" ([] : List (String × String)))
        "failure_ratio" = some "0.5" ∧
      ((2, Release.Abstract "3.0.0") ∈
          (attach_failure_ratios c5Graph [("1.0.0", "0.5")]
            defaultVersionFailureRatio).releases ↔
        (2, Release.Abstract "3.0.0") ∈ c5Graph.releases) :=
  ⟨((C5_attach_enrichment c5Graph [("1.0.0", "0.5")]).1 0
      { version := "1.0.0", payload := "p0",
        metadata := mapInsert "failure_ratio" "0.5" [] }
      (by decide)).1 "0.5" (by decide),
    (C5_attach_enrichment c5Graph [("1.0.0", "0.5")]).2 2 "3.0.0"⟩

/-! Claim C10. -/

/-- C10: every Concrete release of the graph produced by attach_failure_ratios
carries a failure_ratio metadata key, so within a single phased rollout run
the missing-metadata defensive-removal branch of the filter closure is never
taken: on every such release the closure is fully determined by the float
parse of the present value. -/
theorem C10_attach_covers_filter (g : Graph) (ratios : List (String × String))
    (d : String) (t : Rat) :
    ∀ id cr, (id, Release.Concrete cr) ∈ (attach_failure_ratios g ratios d).releases →
      ∃ s, mapGet cr.metadata "failure_ratio" = some s ∧
        filterRelease t (Release.Concrete cr) =
          (match parseRatio s with
            | some v => Except.ok (decide (t < v))
            | none => Except.error "invalid float literal") := by
  intro id cr hmem
  obtain ⟨cr0, hmem0, hver, hpay, hmeta⟩ := attach_concrete_elim hmem
  have hs : mapGet cr.metadata "failure_ratio" =
      some (match mapGet ratios cr0.version with
        | some r => r
        | none => d) := by
    rw [hmeta]
    exact mapGet_mapInsert_self _ _ _
  refine ⟨_, hs, ?_⟩
  simp [filterRelease, hs]

/-- C10 witness: the coverage fact applied to a concrete graph whose release
has no telemetry match, hence the default ratio. -/
theorem C10_witness :
    ∃ s,
      mapGet
          (mapInsert "failure_ratio" defaultVersionFailureRatio
            ([] : List (String × String))) "failure_ratio" = some s ∧
        filterRelease defaultVersionFailureRatioThreshold
            (Release.Concrete
              { version := "1.0.0", payload := "p0",
                metadata := mapInsert "failure_ratio" defaultVersionFailureRatio [] }) =
          (match parseRatio s with
            | some v => Except.ok (decide (defaultVersionFailureRatioThreshold < v))
            | none => Except.error "invalid float literal") :=
  C10_attach_covers_filter
    (Graph.mk [(0, Release.Concrete { version := "1.0.0", payload := "p0", metadata := [] })] [])
    [] defaultVersionFailureRatio defaultVersionFailureRatioThreshold 0
    { version := "1.0.0", payload := "p0",
      metadata := mapInsert "failure_ratio" defaultVersionFailureRatio [] }
    (by decide)

/-- Equality of graphs from equality of both fields. -/
theorem graph_eq_of {a b : Graph} (h1 : a.releases = b.releases) (h2 : a.edges = b.edges) :
    a = b := by
  cases a
  cases b
  cases h1
  cases h2
  rfl

/-- Mapping a function that fixes every element of a list is the identity. -/
theorem list_map_id_of_mem {α : Type} {f : α → α} {l : List α}
    (h : ∀ x ∈ l, f x = x) : l.map f = l := by
  conv_rhs => rw [← List.map_id l]
  exact List.map_congr_left h

/-- The closure of attach_failure_ratios is idempotent on the release it
produces: re-enriching an enriched release changes nothing. -/
theorem attachRelease_fst_idem (ratios : List (String × String)) (d : String)
    (rel : Release) :
    (attachRelease ratios d (attachRelease ratios d rel).1).1 =
      (attachRelease ratios d rel).1 := by
  cases rel with
  | Abstract v => rfl
  | Concrete cr => simp [attachRelease, mapInsert_idem]

/-- Every release of the attach_failure_ratios output is an image of its
closure. -/
theorem attach_mem_snd {g : Graph} {ratios : List (String × String)} {d : String}
    {p : Nat × Release} (hp : p ∈ (attach_failure_ratios g ratios d).releases) :
    ∃ rel, p.2 = (attachRelease ratios d rel).1 := by
  rw [attach_releases_eq] at hp
  obtain ⟨q, hq, heq⟩ := List.mem_map.mp hp
  refine ⟨q.2, ?_⟩
  rw [← heq]

/-- Filtering a graph on which the closure yields false everywhere returns the
graph unchanged with a removal count of zero. -/
theorem filter_noop {g : Graph} {t : Rat}
    (h : ∀ p ∈ g.releases, filterRelease t p.2 = Except.ok false) :
    filter_by_failure_ratio g t = Except.ok (g, 0) := by
  have hfind := findMatchesE_ok_nil h
  simp [filter_by_failure_ratio, hfind, Graph.remove_releases]

/-! Claim C6. -/

/-- C6: the phased rollout transformation is idempotent: if attaching the
telemetry ratios and filtering succeeds once, running it again on the result
with the same telemetry data succeeds, removes nothing, and returns the very
same graph, releases, metadata and edges included. -/
theorem C6_phased_transform_idempotent (g : Graph) (ratios : List (String × String))
    (g1 : Graph) (n1 : Nat) (hnd : (g.releases.map Prod.fst).Nodup)
    (h1 : phased_transform g ratios = Except.ok (g1, n1)) :
    phased_transform g1 ratios = Except.ok (g1, 0) := by
  have hnd1 : (((attach_failure_ratios g ratios
      defaultVersionFailureRatio).releases.map Prod.fst)).Nodup := by
    rw [attach_map_fst]
    exact hnd
  unfold phased_transform at h1
  have hmem := filter_ok_mem_iff hnd1 h1
  have hsub : ∀ p ∈ g1.releases,
      p ∈ (attach_failure_ratios g ratios defaultVersionFailureRatio).releases ∧
        filterRelease defaultVersionFailureRatioThreshold p.2 = Except.ok false :=
    fun p hp => (hmem p).mp hp
  have hattach : attach_failure_ratios g1 ratios defaultVersionFailureRatio = g1 := by
    apply graph_eq_of
    · rw [attach_releases_eq]
      apply list_map_id_of_mem
      intro p hp
      obtain ⟨rel, hrel⟩ := attach_mem_snd (hsub p hp).1
      rw [hrel, attachRelease_fst_idem, ← hrel]
    · rfl
  unfold phased_transform
  rw [hattach]
  exact filter_noop (fun p hp => (hsub p hp).2)

/-- Graph for the C6 witness: a matched release below threshold, an unmatched
release (default ratio 1.0, removed), and an Abstract release. -/
def c6Graph : Graph :=
  { releases :=
      [ (0, Release.Concrete { version := "1.0.0", payload := "p0", metadata := [] }),
        (1, Release.Concrete { version := "2.0.0", payload := "p1", metadata := [] }),
        (2, Release.Abstract "3.0.0") ],
    edges := [(0, 1), (0, 2)] }

/-- Survivor graph of the first phased rollout run on the C6 witness graph. -/
def c6Survivor : Graph :=
  { releases :=
      [ (0,
          Release.Concrete
            { version := "1.0.0", payload := "p0",
              metadata := [("failure_ratio", "0.5")] }),
        (2, Release.Abstract "3.0.0") ],
    edges := [(0, 2)] }

/-- C6 witness: idempotence applied to the concrete first-run output. -/
theorem C6_witness :
    phased_transform c6Survivor [("1.0.0", "0.5")] = Except.ok (c6Survivor, 0) :=
  C6_phased_transform_idempotent c6Graph [("1.0.0", "0.5")] c6Survivor 1
    (by decide) (by decide)

/-! Claim C3. -/

/-- The modelled parameter extraction fails with the first key, in request
order, whose value is absent from the parameters. -/
theorem get_multiple_values_error_first (params : List (String × String))
    (keys : List String) (k : String)
    (hk : keys.find? (fun key => (mapGet params key).isNone) = some k) :
    get_multiple_values params keys = Except.error ("missing parameter " ++ k) := by
  induction keys with
  | nil => cases hk
  | cons k0 t ih =>
    cases hg : mapGet params k0 with
    | none =>
      have hpos : (fun key => (mapGet params key).isNone) k0 = true := by
        simp [hg]
      rw [List.find?_cons_of_pos t hpos, Option.some.injEq] at hk
      subst hk
      simp [get_multiple_values, hg]
    | some v =>
      have hneg : ¬ (fun key => (mapGet params key).isNone) k0 = true := by
        simp [hg]
      rw [List.find?_cons_of_neg t hneg] at hk
      simp [get_multiple_values, hg, ih hk]

/-- C3: when one of the keys version, channel, id is absent from the incoming
parameters, the phased rollout run fails with a missing-key error naming the
first absent key and issues no telemetry query (the query count of the run is
zero, whatever the telemetry outcome would have been). -/
theorem C3_missing_parameter (io : InternalIo) (q : Except String QueryResult)
    (k : String)
    (hk : (["version", "channel", "id"].find?
        (fun key => (mapGet io.parameters key).isNone)) = some k) :
    PhasedRolloutPlugin.run_internal io q =
      (0, Except.error ("missing parameter " ++ k)) := by
  have hg := get_multiple_values_error_first io.parameters ["version", "channel", "id"] k hk
  simp [PhasedRolloutPlugin.run_internal, hg]

/-- Input for the C3 witness: parameters carrying version only. -/
def c3Io : InternalIo :=
  { graph := Graph.mk [] [], parameters := [("version", "4.0.0-0.9")] }

/-- C3 witness: with only version present, the run fails naming channel, the
first absent key, with zero telemetry queries, for an arbitrary telemetry
outcome. -/
theorem C3_witness :
    PhasedRolloutPlugin.run_internal c3Io (Except.error "never queried") =
      (0, Except.error "missing parameter channel") :=
  C3_missing_parameter c3Io (Except.error "never queried") "channel" (by decide)

/-! Claim C7. -/

/-- A telemetry vector entry is well formed for version v and sample s when
its metric is an object whose version label is the string v, and its sample
is s. -/
def wellFormedVectorEntry (vr : VectorResult) (v s : String) : Prop :=
  ∃ mo, vr.metric.as_object = some mo ∧
    ∃ jv, mapGet mo "version" = some jv ∧ jv.as_str = some v ∧ vr.value.sample = s

/-- The extraction closure yields exactly the pairs of well-formed entries. -/
theorem extractVersionRatio_some_iff (vr : VectorResult) (v s : String) :
    extractVersionRatio vr = some (v, s) ↔ wellFormedVectorEntry vr v s := by
  constructor
  · intro h
    cases hmo : vr.metric.as_object with
    | none => simp [extractVersionRatio, VectorResult.get_metric_value_pair, hmo] at h
    | some mo =>
      cases hjv : mapGet mo "version" with
      | none => simp [extractVersionRatio, VectorResult.get_metric_value_pair, hmo, hjv] at h
      | some jv =>
        cases hstr : jv.as_str with
        | none =>
          simp [extractVersionRatio, VectorResult.get_metric_value_pair, hmo, hjv, hstr] at h
        | some vs =>
          simp [extractVersionRatio, VectorResult.get_metric_value_pair,
            VectorValue.get_time_sample_pair, hmo, hjv, hstr] at h
          exact ⟨mo, hmo, jv, hjv, by rw [hstr, h.1], h.2⟩
  · rintro ⟨mo, hmo, jv, hjv, hstr, hsample⟩
    simp [extractVersionRatio, VectorResult.get_metric_value_pair,
      VectorValue.get_time_sample_pair, hmo, hjv, hstr, hsample]

/-- Lookup in a fold of overwriting inserts, with distinct keys overall. -/
theorem foldl_mapInsert_get_iff (k : String) (v : String) :
    ∀ (l acc : List (String × String)),
      ((acc.map Prod.fst ++ l.map Prod.fst)).Nodup →
      (mapGet (l.foldl (fun m p => mapInsert p.1 p.2 m) acc) k = some v ↔
        (k, v) ∈ acc ∨ (k, v) ∈ l) := by
  intro l
  induction l with
  | nil =>
    intro acc hnd
    simp only [List.map_nil, List.append_nil] at hnd
    simp [mapGet_some_iff_mem hnd]
  | cons p t ih =>
    intro acc hnd
    obtain ⟨k0, v0⟩ := p
    rw [List.map_cons] at hnd
    have hk0 : k0 ∉ acc.map Prod.fst := by
      rw [List.nodup_append] at hnd
      intro hmem
      exact hnd.2.2 hmem (List.mem_cons_self _ _)
    have hins : mapInsert k0 v0 acc = acc ++ [(k0, v0)] := mapInsert_of_not_mem hk0 v0
    have hnd2 : (((acc ++ [(k0, v0)]).map Prod.fst ++ t.map Prod.fst)).Nodup := by
      rw [List.map_append]
      rw [List.append_assoc]
      simpa using hnd
    have := ih (acc ++ [(k0, v0)])
    rw [List.foldl_cons]
    simp only [hins]
    rw [this hnd2]
    simp only [List.mem_append, List.mem_singleton, List.mem_cons]
    constructor
    · intro h
      rcases h with (h1 | h2 | h0) | h3
      · exact Or.inl h1
      · exact Or.inr (Or.inl h2)
      · cases h0
      · exact Or.inr (Or.inr h3)
    · intro h
      rcases h with h1 | h2 | h3
      · exact Or.inl (Or.inl h1)
      · exact Or.inl (Or.inr (Or.inl h2))
      · exact Or.inr h3

/-- Lookup in the HashMap collect of a pair list with distinct keys is
membership in the list. -/
theorem collectMap_get_iff {l : List (String × String)}
    (hnd : (l.map Prod.fst).Nodup) (k v : String) :
    mapGet (collectMap l) k = some v ↔ (k, v) ∈ l := by
  have := foldl_mapInsert_get_iff k v l [] (by simpa using hnd)
  rw [collectMap]
  rw [this]
  simp

/-- C7: extracting the (version, sample) pairs of a telemetry vector never
fails; malformed entries are dropped, and, when the well-formed entries carry
distinct versions, the returned map holds exactly their (version, sample)
pairs. -/
theorem C7_extraction_drops_malformed (results : List VectorResult)
    (hnd : ((results.filterMap extractVersionRatio).map Prod.fst).Nodup) :
    ∃ m, get_failure_ratios (Except.ok (QueryResult.Success
        { data := QueryData.Vector results, warnings := none })) = Except.ok m ∧
      ∀ v s, mapGet m v = some s ↔ ∃ vr ∈ results, wellFormedVectorEntry vr v s := by
  refine ⟨collectMap (results.filterMap extractVersionRatio), rfl, ?_⟩
  intro v s
  rw [collectMap_get_iff hnd]
  rw [List.mem_filterMap]
  constructor
  · rintro ⟨vr, hvr, hex⟩
    exact ⟨vr, hvr, (extractVersionRatio_some_iff vr v s).mp hex⟩
  · rintro ⟨vr, hvr, hwf⟩
    exact ⟨vr, hvr, (extractVersionRatio_some_iff vr v s).mpr hwf⟩

/-- Telemetry vector for the C7 witness: one well-formed entry and three
malformed ones (non-object metric, missing version label, non-string version
value). -/
def c7Results : List VectorResult :=
  [ { metric := Json.obj [("version", Json.str "4.0.0-0.5")],
      value := { time := 1, sample := "0.9" } },
    { metric := Json.str "not-an-object", value := { time := 1, sample := "0.1" } },
    { metric := Json.obj [("other", Json.str "x")], value := { time := 1, sample := "0.2" } },
    { metric := Json.obj [("version", Json.num 3)], value := { time := 1, sample := "0.3" } } ]

/-- C7 witness: the extraction characterization applied to the concrete
vector with three malformed entries. -/
theorem C7_witness :
    ∃ m, get_failure_ratios (Except.ok (QueryResult.Success
        { data := QueryData.Vector c7Results, warnings := none })) = Except.ok m ∧
      ∀ v s, mapGet m v = some s ↔ ∃ vr ∈ c7Results, wellFormedVectorEntry vr v s :=
  C7_extraction_drops_malformed c7Results (by decide)

/-! Claim C2. -/

/-- C2 counterexample: the claim says a malformed response body increments the
shared errors counter exactly once; on the code, the JSON-parse failure path
carries no counter increment, so the errors delta is 0, not 1 (the requests
delta is 1 and the run still fails). -/
theorem C2_counterexample :
    CincinnatiGraphFetchPlugin.run_internal
        (InternalIo.mk (Graph.mk [] []) []) true
        (HttpOutcome.response true "200 OK" (Except.ok (Except.error "expected value"))) =
      ((1, 0), Except.error "failed to parse JSON: expected value") := by decide

/-- C2 (amended): whenever the upstream request assembles, the requests
counter is incremented exactly once whatever the outcome; the transport
failure and the non-success status each increment the errors counter exactly
once, while a body read failure and a malformed response body fail the run
without touching the errors counter. -/
theorem C2_graph_fetch_counters (io : InternalIo) (msg status e : String)
    (body : Except String (Except String Graph)) (g : Graph) :
    (CincinnatiGraphFetchPlugin.run_internal io true
        (HttpOutcome.transportError msg)).1 = (1, 1) ∧
      (CincinnatiGraphFetchPlugin.run_internal io true
          (HttpOutcome.response false status body)).1 = (1, 1) ∧
      ((CincinnatiGraphFetchPlugin.run_internal io true
          (HttpOutcome.response true status (Except.ok (Except.error e)))).1 = (1, 0) ∧
        (CincinnatiGraphFetchPlugin.run_internal io true
            (HttpOutcome.response true status (Except.ok (Except.error e)))).2 =
          Except.error ("failed to parse JSON: " ++ e)) ∧
      (CincinnatiGraphFetchPlugin.run_internal io true
          (HttpOutcome.response true status (Except.error e))).1 = (1, 0) ∧
      (CincinnatiGraphFetchPlugin.run_internal io true
          (HttpOutcome.response true status (Except.ok (Except.ok g)))).1 = (1, 0) :=
  ⟨rfl, rfl, ⟨rfl, rfl⟩, rfl, rfl⟩

/-! Claim C8. -/

/-- C8: both the graph fetch plugin and the phased rollout plugin pass the
incoming parameters through unchanged: any successful run returns an output
whose parameters equal the input parameters. -/
theorem C8_parameters_passthrough :
    (∀ (io : InternalIo) (ra : Bool) (o : HttpOutcome) (out : InternalIo),
      (CincinnatiGraphFetchPlugin.run_internal io ra o).2 = Except.ok out →
        out.parameters = io.parameters) ∧
    (∀ (io : InternalIo) (q : Except String QueryResult) (n : Nat) (out : InternalIo),
      PhasedRolloutPlugin.run_internal io q = (n, Except.ok out) →
        out.parameters = io.parameters) := by
  constructor
  · intro io ra o out h
    cases ra with
    | false => simp [CincinnatiGraphFetchPlugin.run_internal] at h
    | true =>
      cases o with
      | transportError e => simp [CincinnatiGraphFetchPlugin.run_internal] at h
      | response is_success status body =>
        cases is_success with
        | false => simp [CincinnatiGraphFetchPlugin.run_internal] at h
        | true =>
          cases body with
          | error e => simp [CincinnatiGraphFetchPlugin.run_internal] at h
          | ok parsed =>
            cases parsed with
            | error e => simp [CincinnatiGraphFetchPlugin.run_internal] at h
            | ok g =>
              simp [CincinnatiGraphFetchPlugin.run_internal] at h
              rw [← h]
  · intro io q n out h
    unfold PhasedRolloutPlugin.run_internal at h
    cases hgmv : get_multiple_values io.parameters ["version", "channel", "id"] with
    | error e => simp [hgmv] at h
    | ok vals =>
      simp only [hgmv] at h
      cases hratios : get_failure_ratios q with
      | error e => simp [hratios] at h
      | ok ratios =>
        simp only [hratios] at h
        cases hfil : filter_by_failure_ratio
            (attach_failure_ratios io.graph ratios defaultVersionFailureRatio)
            defaultVersionFailureRatioThreshold with
        | error e => simp [hfil] at h
        | ok gr =>
          simp only [hfil, Prod.mk.injEq, Except.ok.injEq] at h
          rw [← h.2]

/-- Input for the C8 witness: nonempty parameters carried through both
plugins. -/
def c8Io : InternalIo :=
  { graph := Graph.mk [] [],
    parameters := [("version", "1.0.0"), ("channel", "stable"), ("id", "iid")] }

/-- C8 witness: the passthrough fact applied to one successful run of each
plugin. -/
theorem C8_witness :
    (InternalIo.mk (Graph.mk [] []) c8Io.parameters).parameters = c8Io.parameters ∧
      (InternalIo.mk (Graph.mk [] []) c8Io.parameters).parameters = c8Io.parameters :=
  ⟨C8_parameters_passthrough.1 c8Io true
      (HttpOutcome.response true "200 OK" (Except.ok (Except.ok (Graph.mk [] []))))
      (InternalIo.mk (Graph.mk [] []) c8Io.parameters) (by decide),
    C8_parameters_passthrough.2 c8Io
      (Except.ok (QueryResult.Success { data := QueryData.Vector [], warnings := none })) 1
      (InternalIo.mk (Graph.mk [] []) c8Io.parameters) (by decide)⟩

/-! Claim C9. -/

/-- C9: deserializing the graph fetch configuration rejects a present but
empty upstream setting, and an absent upstream setting yields the documented
default upstream URL. -/
theorem C9_deserialize_config_default :
    CincinnatiGraphFetchPlugin.deserialize_config (some "") =
        Except.error "empty upstream" ∧
      CincinnatiGraphFetchPlugin.deserialize_config none =
        Except.ok { upstream := DEFAULT_UPSTREAM_URL } ∧
      DEFAULT_UPSTREAM_URL = "http://localhost:8080/v1/graph" := by
  refine ⟨?_, ?_, rfl⟩ <;> decide

end Cincinnati
